import Mathlib

/-!
Verification of the GMN shuffle utility (`src/util.ts`, `src/index.ts`).

Arrays are modelled as total functions `Nat → Nat` (a JS array read at an
index, with `0` for the zero-initialized `Uint32Array` slots) or as `List`s;
a store into a `Uint32Array` truncates modulo `2 ^ 32`.  PRNG draws
(`Math.random()` / `mulberry32_rand()` outputs) are rationals in `[0, 1)`,
consumed in call order from a list.  JS number arithmetic on integers below
`2 ^ 53` is exact and is modelled by exact `Nat` / `ℚ` arithmetic; where a
value can exceed `2 ^ 53` (the PRNG's seed accumulator) the IEEE double
rounding of the sum is modelled explicitly (`roundDouble`, round-to-nearest
with ties to even mantissa).  The bitwise operators coerce their operands
to 32 bits, modelled by `% 2 ^ 32` on the unsigned bit pattern.
-/

namespace GMN

/-- Truncation performed by a store into a `Uint32Array` slot. -/
def u32 (v : Nat) : Nat := v % 4294967296

/-- `Math.imul`: 32-bit integer multiplication, viewed as an unsigned bit pattern. -/
def imul (a b : Nat) : Nat := a * b % 4294967296

/-- `Math.floor(r * (i + 1))`: the swap index drawn for loop variable `i`. -/
def jIndex (r : ℚ) (i : Nat) : Nat := (⌊r * ((i : ℚ) + 1)⌋).toNat

/-- `arrayFillA(n)()` = `Array.from({ length:n }, (_, i) => i)`: the element
at index `i` is the callback value `i`. -/
def arrayFillA (n : Nat) : List Nat := (List.range n).map (fun i => i)

/-- `arrayFillB(n)()`: allocate length `n`, then `for(i) a[i] = i+1`. -/
def arrayFillB (n : Nat) : List Nat := (List.range n).map (fun i => i + 1)

/-- The `number[]` array produced by the fill loop of `AFB_x_AS`:
`a[i] = i+1` for `i < n` (reads outside the filled range do not occur). -/
def fillB (n : Nat) : Nat → Nat := fun i => if i < n then i + 1 else 0

/-- The `Uint32Array` produced by the fill loop of `AFB_x_AS_x_OPT`:
zero-allocated, then `a[i] = i+1` stored with 32-bit truncation. -/
def optFill (n : Nat) : Nat → Nat := fun i => if i < n then u32 (i + 1) else 0

/-- One swap body of `AFB_x_AS` / `arrayShuffle`:
`t = a[i]; a[i] = a[j]; a[j] = t` on a plain `number[]`. -/
def plainSwap (a : Nat → Nat) (i j : Nat) : Nat → Nat :=
  Function.update (Function.update a i (a j)) j (a i)

/-- One swap body of `AFB_x_AS_x_OPT`: the same swap, but each store lands
in a `Uint32Array` slot. -/
def optSwap (a : Nat → Nat) (i j : Nat) : Nat → Nat :=
  Function.update (Function.update a i (u32 (a j))) j (u32 (a i))

/-- JS `x || d` for the numbers in `AFB_x_AS_x_OPT_x_NO_INIT`: `0` is falsy. -/
def jsOr (v d : Nat) : Nat := if v = 0 then d else v

/-- One swap body of `AFB_x_AS_x_OPT_x_NO_INIT`:
`t = a[i]||(i+1); a[i] = a[j]||(j+1); a[j] = t`. -/
def noInitSwap (a : Nat → Nat) (i j : Nat) : Nat → Nat :=
  Function.update (Function.update a i (u32 (jsOr (a j) (j + 1)))) j
    (u32 (jsOr (a i) (i + 1)))

/-- The shuffle loop of `AFB_x_AS`: `for(let i=n-1;i>0;--i)` with
`j = Math.floor(Math.random()*(i+1))`, draws consumed from `rs`. -/
def plainLoop : (Nat → Nat) → Nat → List ℚ → Nat → Nat
  | a, 0, _ => a
  | a, i + 1, rs => plainLoop (plainSwap a (i + 1) (jIndex (rs.headD 0) (i + 1))) i rs.tail

/-- The shuffle loop of `AFB_x_AS_x_OPT` (draws from `mulberry32_rand`). -/
def optLoop : (Nat → Nat) → Nat → List ℚ → Nat → Nat
  | a, 0, _ => a
  | a, i + 1, rs => optLoop (optSwap a (i + 1) (jIndex (rs.headD 0) (i + 1))) i rs.tail

/-- The shuffle loop of `AFB_x_AS_x_OPT_x_NO_INIT`. -/
def noInitLoop : (Nat → Nat) → Nat → List ℚ → Nat → Nat
  | a, 0, _ => a
  | a, i + 1, rs => noInitLoop (noInitSwap a (i + 1) (jIndex (rs.headD 0) (i + 1))) i rs.tail

/-- `AFB_x_AS(n)()` run on the draw sequence `rs`: fill `[1..n]`, shuffle,
return the buffer. -/
def AFB_x_AS (n : Nat) (rs : List ℚ) : List Nat :=
  (List.range n).map (plainLoop (fillB n) (n - 1) rs)

/-- `AFB_x_AS_x_OPT(n)()` run on the draw sequence `rs`. -/
def AFB_x_AS_x_OPT (n : Nat) (rs : List ℚ) : List Nat :=
  (List.range n).map (optLoop (optFill n) (n - 1) rs)

/-- `AFB_x_AS_x_OPT_x_NO_INIT(n)()` run on the draw sequence `rs`: the
`Uint32Array` starts all-zero and values are materialized via `||`. -/
def AFB_x_AS_x_OPT_x_NO_INIT (n : Nat) (rs : List ℚ) : List Nat :=
  (List.range n).map (noInitLoop (fun _ => 0) (n - 1) rs)

/-- A `NumberOrNumberArray` slot of the `BucketRadixShuffle` memory: a JS
value that is either a number (`0` = the zero sentinel, falsy) or an array
of numbers. -/
inductive Slot where
  | num (v : Nat)
  | arr (l : List Nat)
deriving DecidableEq

/-- `Math.floor(Math.random() * m.length)`: the slot index for one draw. -/
def natFloorIdx (r : ℚ) (len : Nat) : Nat := (⌊r * (len : ℚ)⌋).toNat

/-- One distribution step of `BucketRadixShuffle`: store `v` at slot `r`
(`if(!m[r]) m[r]=v; else if(!(m[r] instanceof Array)) m[r]=[m[r],v];
else m[r].push(v)`). -/
def bucketPlace (m : List Slot) (r v : Nat) : List Slot :=
  match m.getD r (Slot.num 0) with
  | .num 0 => m.set r (.num v)
  | .num w => m.set r (.arr [w, v])
  | .arr l => m.set r (.arr (l ++ [v]))

/-- The distribution loop of `BucketRadixShuffle`: `for(let i=0;i<n;++i)`
places value `i+1` at a random slot; `v` is the next value, the third
argument counts the remaining iterations. -/
def distGo : List Slot → Nat → Nat → List ℚ → List Slot
  | m, _, 0, _ => m
  | m, v, c + 1, rs =>
      distGo (bucketPlace m (natFloorIdx (rs.headD 0) m.length) v) (v + 1) c rs.tail

/-- `Array.isArray(x)`. -/
def slotIsArr : Slot → Bool
  | .arr _ => true
  | _ => false

/-- One iteration of the collection loop of `BucketRadixShuffle` at a slot.
The code tests `Array.isArray(m[1])` — slot ONE, not slot `i` — so the test
result `a1isArr` is the same for every slot: when it is `false` a collision
list is pushed raw as a single element, and when it is `true` a slot holding
a plain number contributes nothing (`j < undefined` iterates zero times). -/
def emitSlot (a1isArr : Bool) : Slot → List Slot
  | .num 0 => []
  | .num v => if a1isArr then [] else [.num v]
  | .arr l => if a1isArr then l.map Slot.num else [.arr l]

/-- The collection loop of `BucketRadixShuffle` over all slots in order. -/
def collectGo (b : Bool) : List Slot → List Slot
  | [] => []
  | s :: rest => emitSlot b s ++ collectGo b rest

/-- The whole collection phase: the `Array.isArray(m[1])` test evaluated on
the distributed memory, then the in-order scan. -/
def collect (m : List Slot) : List Slot :=
  collectGo (slotIsArr (m.getD 1 (Slot.num 0))) m

/-- `BucketRadixShuffle(m, n)()` on the draw sequence `rs`: distribute the
values `1..n` into the memory `m`, then collect. -/
def BucketRadixShuffle (m : List Slot) (n : Nat) (rs : List ℚ) : List Slot :=
  collect (distGo m 1 n rs)

/-- Floor of log2 computed with structural fuel so that the kernel can
evaluate it; the fuel `1100` used below exceeds the binade exponent of
every finite IEEE double (the largest is below `2 ^ 1024`), so it never
runs out on a value a JS number can hold. -/
def log2fuel : Nat → Nat → Nat
  | 0, _ => 0
  | f + 1, n => if n ≤ 1 then 0 else log2fuel f (n / 2) + 1

/-- The gap between adjacent representable IEEE doubles at integer
magnitude `n`: `1` below `2 ^ 53`, then `2 ^ (binade - 52)`. -/
def ulp (n : Nat) : Nat := if n < 2 ^ 53 then 1 else 2 ^ (log2fuel 1100 n - 52)

/-- Round an exact nonnegative integer to the nearest IEEE double
(round-to-nearest, ties to even mantissa).  Integers below `2 ^ 53` are
exact; above, the result is the nearest multiple of the `ulp`. -/
def roundDouble (n : Nat) : Nat :=
  let u := ulp n
  let q := n / u
  let r := n % u
  if 2 * r < u then q * u
  else if u < 2 * r then (q + 1) * u
  else if q % 2 = 0 then q * u else (q + 1) * u

/-- JS `+` on nonnegative integer-valued doubles: the exact sum, rounded
to the double grid.  This is where `seed += 0x6D2B79F5` loses precision
once the accumulator reaches `2 ^ 53`. -/
def jsAdd (a b : Nat) : Nat := roundDouble (a + b)

/-- The two multiply/xor/shift mixing rounds and the final xor-shift of
`mulberry32` on the 32-bit word `t0`.  The JS bitwise operators coerce
every operand to 32 bits, so the mixing is itself all-32-bit and is shared
verbatim between the code model and the spec model: the two differ only in
how the state word `t0` is produced. -/
def m32mix (t0 : Nat) : Nat :=
  let t1 := imul (t0 ^^^ (t0 >>> 15)) (t0 ||| 1)
  let t2 := t1 ^^^ ((t1 + imul (t1 ^^^ (t1 >>> 7)) (t1 ||| 61)) % 4294967296)
  (t2 ^^^ (t2 >>> 14)) % 4294967296

/-- One call of the closure returned by `mulberry32(seed)`: the captured
`seed` variable is advanced by JS double addition — a wider accumulator
that is never truncated to 32 bits and rounds once it exceeds `2 ^ 53` —
and the mixing runs on the low 32 bits of the new state.  Returns the new
captured state and the 32-bit output word. -/
def mulberry32_step (seed : Nat) : Nat × Nat :=
  let s := jsAdd seed 0x6D2B79F5
  (s, m32mix (s % 4294967296))

/-- One call of the code generator with the output divided by `2 ^ 32`, as
the source returns it. -/
def mulberry32_next (seed : Nat) : Nat × ℚ :=
  ((mulberry32_step seed).1, ((mulberry32_step seed).2 : ℚ) / 4294967296)

/-- The generator as the spec describes it: the state is a single unsigned
32-bit word and every arithmetic step wraps modulo `2 ^ 32`. -/
def mulberry32_spec_step (state : Nat) : Nat × Nat :=
  let s := (state + 0x6D2B79F5) % 4294967296
  (s, m32mix s)

/-- One call of the spec generator with the output divided by `2 ^ 32`. -/
def mulberry32_spec_next (state : Nat) : Nat × ℚ :=
  ((mulberry32_spec_step state).1, ((mulberry32_spec_step state).2 : ℚ) / 4294967296)

/-- The output stream of `k` successive calls of the code generator. -/
def mulberry32_run : Nat → Nat → List ℚ
  | _, 0 => []
  | s, k + 1 => (mulberry32_next s).2 :: mulberry32_run (mulberry32_next s).1 k

/-- The output stream of `k` successive calls of the spec generator. -/
def mulberry32_spec_run : Nat → Nat → List ℚ
  | _, 0 => []
  | s, k + 1 => (mulberry32_spec_next s).2 :: mulberry32_spec_run (mulberry32_spec_next s).1 k

/-- The sequence of outputs observable from one `mulberry32` closure seeded
with `s`: `M32Trace s outs` holds iff successive calls can produce `outs`
(each step emits the call's output and advances the captured state). -/
inductive M32Trace : Nat → List ℚ → Prop where
  | nil (s : Nat) : M32Trace s []
  | cons (s s2 : Nat) (q : ℚ) (rest : List ℚ) (hstep : mulberry32_next s = (s2, q))
      (h : M32Trace s2 rest) : M32Trace s (q :: rest)

/-- One run of the swap-shuffle strategy driven by a `mulberry32` closure
seeded with `seed`: the strategy consumes `n - 1` draws from the closure. -/
def ShuffleRun (n seed : Nat) (out : List Nat) : Prop :=
  ∃ rs : List ℚ, M32Trace seed rs ∧ rs.length = n - 1 ∧ out = AFB_x_AS_x_OPT n rs

/-- A JS number as received by `main` from `Number(argv2)`: not-a-number,
an infinity, or a finite rational (doubles are rationals). -/
inductive JSNum where
  | nan
  | posInf
  | negInf
  | num (q : ℚ)

/-- `Number.isInteger(n)`. -/
def numIsInteger : JSNum → Bool
  | .num q => q.den == 1
  | _ => false

/-- The JS comparison `n < 1` (false on NaN). -/
def jsLtOne : JSNum → Bool
  | .num q => decide (q < 1)
  | .negInf => true
  | _ => false

/-- The error message printed by `main` for an invalid size. -/
def invalidSizeMsg : String := "n must be a positive integer (> 0)."

/-- The `Nat` value of a validated positive-integer JS number. -/
def jsToNat : JSNum → Nat
  | .num q => q.num.toNat
  | _ => 0

/-- `main` from `src/index.ts`, after `Number(argv2)`: validate
`!Number.isInteger(n) || n < 1` and exit with the invalid-size message
before the buffer is allocated; otherwise generate via `AFB_x_AS_x_OPT`. -/
def main (x : JSNum) (rs : List ℚ) : Except String (List Nat) :=
  if !(numIsInteger x) || jsLtOne x then Except.error invalidSizeMsg
  else Except.ok (AFB_x_AS_x_OPT (jsToNat x) rs)

/-- Arguments of `measure`: the zero-argument thunk (modelled as its effect
on a world state `σ`), the declared operation count and the name. -/
structure MeasureArgs (σ : Type) where
  f : σ → σ
  n : ℚ
  name : String

/-- The record `measure` reports: label, elapsed milliseconds and the
printed ops-per-second figure. -/
structure BenchRecord where
  label : String
  ms : ℚ
  ops : ℚ

/-- `measure(args)`: read the clock (`t0`), run `args.f()` once, read the
clock again (`t1`), report `args.n/ms*1000` ops per second. -/
def measure {σ : Type} (args : MeasureArgs σ) (t0 t1 : ℚ) (s : σ) : σ × BenchRecord :=
  let s1 := args.f s
  let ms := t1 - t0
  (s1, ⟨args.name, ms, args.n / ms * 1000⟩)

/-- A concrete benchmark label for the C10 witness. -/
def benchLabel : String := "benchmark"

/-- The transposition of positions `i` and `j` (proof-side helper). -/
def swapFn (i j : Nat) : Nat → Nat := fun k => if k = i then j else if k = j then i else k

/- ===================== theorems ===================== -/

lemma swapFn_involutive (i j k : Nat) : swapFn i j (swapFn i j k) = k := by
  simp only [swapFn]
  split_ifs <;> omega

lemma swapFn_lt {n i j : Nat} (hi : i < n) (hj : j < n) (k : Nat) :
    swapFn i j k < n ↔ k < n := by
  simp only [swapFn]
  split_ifs <;> omega

lemma plainSwap_apply (a : Nat → Nat) (i j k : Nat) :
    plainSwap a i j k = a (swapFn i j k) := by
  simp only [plainSwap, swapFn, Function.update_apply]
  split_ifs <;> simp_all

lemma optSwap_apply (a : Nat → Nat) (i j : Nat) (hi : a i < 4294967296)
    (hj : a j < 4294967296) (k : Nat) : optSwap a i j k = a (swapFn i j k) := by
  simp only [optSwap, swapFn, u32, Function.update_apply, Nat.mod_eq_of_lt hi,
    Nat.mod_eq_of_lt hj]
  split_ifs <;> simp_all

lemma optSwap_bound (a : Nat → Nat) (i j : Nat) (ha : ∀ k, a k < 4294967296) :
    ∀ k, optSwap a i j k < 4294967296 := by
  intro k
  simp only [optSwap, u32, Function.update_apply]
  split_ifs
  · exact Nat.mod_lt _ (by norm_num)
  · exact Nat.mod_lt _ (by norm_num)
  · exact ha k

lemma headD_bounds (rs : List ℚ) (hrs : ∀ r ∈ rs, 0 ≤ r ∧ r < 1) :
    0 ≤ rs.headD 0 ∧ rs.headD 0 < 1 := by
  cases rs with
  | nil => norm_num
  | cons r rest => exact hrs r (List.mem_cons_self r rest)

lemma jIndex_le {r : ℚ} (_h0 : 0 ≤ r) (h1 : r < 1) (i : Nat) : jIndex r i ≤ i := by
  have hlt : ⌊r * ((i : ℚ) + 1)⌋ < (i : ℤ) + 1 := by
    apply Int.floor_lt.mpr
    push_cast
    have hstep : r * ((i : ℚ) + 1) < 1 * ((i : ℚ) + 1) :=
      mul_lt_mul_of_pos_right h1 (by positivity)
    simpa using hstep
  simp only [jIndex]
  omega

lemma map_swap_perm {n i j : Nat} (hi : i < n) (hj : j < n) (a : Nat → Nat) :
    ((List.range n).map (fun k => a (swapFn i j k))).Perm ((List.range n).map a) := by
  have h1 : (List.range n).map (fun k => a (swapFn i j k))
      = ((List.range n).map (swapFn i j)).map a := by
    simp [List.map_map, Function.comp]
  rw [h1]
  refine List.Perm.map a ?_
  have hinj : Function.Injective (swapFn i j) := by
    intro k1 k2 hk
    have h2 := congrArg (swapFn i j) hk
    rwa [swapFn_involutive, swapFn_involutive] at h2
  have hnd : ((List.range n).map (swapFn i j)).Nodup := (List.nodup_range n).map hinj
  apply (List.perm_ext_iff_of_nodup hnd (List.nodup_range n)).mpr
  intro x
  simp only [List.mem_map, List.mem_range]
  constructor
  · rintro ⟨y, hy, rfl⟩
    exact (swapFn_lt hi hj y).mpr hy
  · intro hx
    exact ⟨swapFn i j x, (swapFn_lt hi hj _).mpr hx, swapFn_involutive i j x⟩

lemma optLoop_perm {n : Nat} :
    ∀ (i : Nat) (rs : List ℚ) (a : Nat → Nat), i < n →
      (∀ r ∈ rs, 0 ≤ r ∧ r < 1) → (∀ k, a k < 4294967296) →
      ((List.range n).map (optLoop a i rs)).Perm ((List.range n).map a) := by
  intro i
  induction i with
  | zero => intro rs a _ _ _; exact List.Perm.refl _
  | succ i ih =>
    intro rs a hin hrs ha
    have hhead := headD_bounds rs hrs
    have hj : jIndex (rs.headD 0) (i + 1) ≤ i + 1 := jIndex_le hhead.1 hhead.2 (i + 1)
    have hjn : jIndex (rs.headD 0) (i + 1) < n := lt_of_le_of_lt hj hin
    show ((List.range n).map
      (optLoop (optSwap a (i + 1) (jIndex (rs.headD 0) (i + 1))) i rs.tail)).Perm _
    refine (ih rs.tail _ (Nat.lt_of_succ_lt hin)
      (fun r hr => hrs r (List.mem_of_mem_tail hr)) (optSwap_bound _ _ _ ha)).trans ?_
    have he : optSwap a (i + 1) (jIndex (rs.headD 0) (i + 1))
        = fun k => a (swapFn (i + 1) (jIndex (rs.headD 0) (i + 1)) k) :=
      funext (optSwap_apply a _ _ (ha _) (ha _))
    rw [he]
    exact map_swap_perm hin hjn a

lemma plainLoop_perm {n : Nat} :
    ∀ (i : Nat) (rs : List ℚ) (a : Nat → Nat), i < n →
      (∀ r ∈ rs, 0 ≤ r ∧ r < 1) →
      ((List.range n).map (plainLoop a i rs)).Perm ((List.range n).map a) := by
  intro i
  induction i with
  | zero => intro rs a _ _; exact List.Perm.refl _
  | succ i ih =>
    intro rs a hin hrs
    have hhead := headD_bounds rs hrs
    have hj : jIndex (rs.headD 0) (i + 1) ≤ i + 1 := jIndex_le hhead.1 hhead.2 (i + 1)
    have hjn : jIndex (rs.headD 0) (i + 1) < n := lt_of_le_of_lt hj hin
    show ((List.range n).map
      (plainLoop (plainSwap a (i + 1) (jIndex (rs.headD 0) (i + 1))) i rs.tail)).Perm _
    refine (ih rs.tail _ (Nat.lt_of_succ_lt hin)
      (fun r hr => hrs r (List.mem_of_mem_tail hr))).trans ?_
    have he : plainSwap a (i + 1) (jIndex (rs.headD 0) (i + 1))
        = fun k => a (swapFn (i + 1) (jIndex (rs.headD 0) (i + 1)) k) :=
      funext (plainSwap_apply a _ _)
    rw [he]
    exact map_swap_perm hin hjn a

/-- Claim C1: for `1 ≤ N` (within the `Uint32Array` value range) and any
draw sequence with values in `[0, 1)`, the buffers returned by
`AFB_x_AS_x_OPT` and `AFB_x_AS` have length `N` and are permutations of
`[1, ..., N]`: every value appears exactly once. -/
theorem AFB_shuffle_perm {n : Nat} {rs : List ℚ} (hn : 1 ≤ n) (hn32 : n < 4294967296)
    (hrs : ∀ r ∈ rs, 0 ≤ r ∧ r < 1) :
    (AFB_x_AS_x_OPT n rs).length = n ∧
      (AFB_x_AS_x_OPT n rs).Perm ((List.range n).map (fun i => i + 1)) ∧
      (AFB_x_AS n rs).length = n ∧
      (AFB_x_AS n rs).Perm ((List.range n).map (fun i => i + 1)) := by
  have hpred : n - 1 < n := Nat.sub_lt hn one_pos
  have hoptfill : ∀ k, optFill n k < 4294967296 := by
    intro k
    simp only [optFill]
    split_ifs
    · exact Nat.mod_lt _ (by norm_num)
    · norm_num
  have hofill : (List.range n).map (optFill n) = (List.range n).map (fun i => i + 1) := by
    apply List.map_congr_left
    intro k hk
    rw [List.mem_range] at hk
    simp only [optFill, if_pos hk, u32]
    exact Nat.mod_eq_of_lt (by omega)
  have hbfill : (List.range n).map (fillB n) = (List.range n).map (fun i => i + 1) := by
    apply List.map_congr_left
    intro k hk
    rw [List.mem_range] at hk
    simp only [fillB, if_pos hk]
  refine ⟨by simp [AFB_x_AS_x_OPT], ?_, by simp [AFB_x_AS], ?_⟩
  · have hperm := optLoop_perm (n := n) (n - 1) rs (optFill n) hpred hrs hoptfill
    rw [hofill] at hperm
    exact hperm
  · have hperm := plainLoop_perm (n := n) (n - 1) rs (fillB n) hpred hrs
    rw [hbfill] at hperm
    exact hperm

/-- Witness for C1 at `N = 3` with the empty draw list (each missing draw
defaults to `0`, a value in `[0, 1)`). -/
theorem AFB_shuffle_perm_witness :
    (1 ≤ 3 ∧ 3 < 4294967296) ∧
      (AFB_x_AS_x_OPT 3 []).Perm ((List.range 3).map (fun i => i + 1)) ∧
      (AFB_x_AS 3 []).Perm ((List.range 3).map (fun i => i + 1)) :=
  ⟨⟨by norm_num, by norm_num⟩,
    (AFB_shuffle_perm (by norm_num) (by norm_num) (by simp)).2.1,
    (AFB_shuffle_perm (by norm_num) (by norm_num) (by simp)).2.2.2⟩

/-- Claim C2: with `N = 2`, two pre-zeroed slots and both draws landing in
slot `0`, the distribution phase builds the collision list `[1, 2]` as
claimed, but the scan pushes that list raw as a single element (the code
tests `Array.isArray(m[1])`, and slot `1` holds the number `0`), so the
returned buffer is `[[1, 2]]`: length `1`, not a permutation of `{1, 2}`. -/
theorem bucketRadix_collision_breaks_output :
    BucketRadixShuffle [Slot.num 0, Slot.num 0] 2 [0, 0] = [Slot.arr [1, 2]] ∧
      (BucketRadixShuffle [Slot.num 0, Slot.num 0] 2 [0, 0]).length ≠ 2 := by
  have h : BucketRadixShuffle [Slot.num 0, Slot.num 0] 2 [0, 0] = [Slot.arr [1, 2]] := by
    simp [BucketRadixShuffle, distGo, natFloorIdx, bucketPlace, collect, collectGo, emitSlot,
      slotIsArr, List.getD]
  refine ⟨h, ?_⟩
  rw [h]
  decide

/-- Claim C3: for every input that is not a positive integer (NaN, an
infinity, a non-integral rational, zero or negative), `main` returns the
labelled invalid-size error and never reaches the shuffle, so no buffer is
allocated and the value is never silently coerced. -/
theorem main_rejects_invalid_size (x : JSNum) (rs : List ℚ)
    (h : ¬ ∃ k : Nat, 1 ≤ k ∧ x = JSNum.num (k : ℚ)) :
    main x rs = Except.error invalidSizeMsg := by
  cases x with
  | nan => rfl
  | posInf => rfl
  | negInf => rfl
  | num q =>
    by_cases hden : q.den = 1
    · by_cases hlt : q < 1
      · simp [main, numIsInteger, jsLtOne, hlt]
      · exfalso
        apply h
        have hq : (q.num : ℚ) = q := (Rat.den_eq_one_iff q).mp hden
        have hq1 : 1 ≤ q := not_lt.mp hlt
        have hnum1 : 1 ≤ q.num := by
          have h1 : (1 : ℚ) ≤ (q.num : ℚ) := by rw [hq]; exact hq1
          exact_mod_cast h1
        refine ⟨q.num.toNat, by omega, ?_⟩
        have h2 : (q.num.toNat : ℤ) = q.num := Int.toNat_of_nonneg (by omega)
        have h3 : ((q.num.toNat : Nat) : ℚ) = q := by
          rw [← hq]
          exact_mod_cast congrArg (fun z : ℤ => (z : ℚ)) h2
        rw [h3]
    · simp [main, numIsInteger, hden]

/-- Witness for C3: NaN (spec input "not-a-number") is rejected. -/
theorem main_rejects_invalid_size_witness :
    main JSNum.nan [] = Except.error invalidSizeMsg :=
  main_rejects_invalid_size JSNum.nan []
    (by rintro ⟨k, _, hcontra⟩; cases hcontra)

lemma roundDouble_small {n : Nat} (h : n < 2 ^ 53) : roundDouble n = n := by
  have hu : ulp n = 1 := by
    simp only [ulp]
    rw [if_pos h]
  simp [roundDouble, hu, Nat.mod_one, Nat.div_one]

lemma jsAdd_small {a b : Nat} (h : a + b < 2 ^ 53) : jsAdd a b = a + b := by
  simp only [jsAdd]
  exact roundDouble_small h

lemma mulberry32_step_spec (seed : Nat) (h : seed + 0x6D2B79F5 < 2 ^ 53) :
    (mulberry32_step seed).2 = (mulberry32_spec_step (seed % 4294967296)).2 ∧
      (mulberry32_step seed).1 = seed + 0x6D2B79F5 ∧
      (mulberry32_step seed).1 % 4294967296 = (mulberry32_spec_step (seed % 4294967296)).1 := by
  have hadd : jsAdd seed 0x6D2B79F5 = seed + 0x6D2B79F5 := jsAdd_small h
  have hmod : (seed + 0x6D2B79F5) % 4294967296
      = (seed % 4294967296 + 0x6D2B79F5) % 4294967296 := by omega
  simp only [mulberry32_step, mulberry32_spec_step, hadd]
  exact ⟨by rw [hmod], trivial, hmod⟩

/-- While the captured seed stays below `2 ^ 53` the double addition is
exact and the code generator's outputs are bit-identical to the all-32-bit
spec generator; this regime ends at `2 ^ 53` (see the C4 theorem). -/
lemma mulberry32_run_spec_of_small :
    ∀ (k seed : Nat), seed + k * 0x6D2B79F5 < 2 ^ 53 →
      mulberry32_run seed k = mulberry32_spec_run (seed % 4294967296) k := by
  intro k
  induction k with
  | zero => intro seed _; rfl
  | succ k ih =>
    intro seed hb
    have h1 : seed + 0x6D2B79F5 < 2 ^ 53 := by omega
    have hstep := mulberry32_step_spec seed h1
    have hout : (mulberry32_next seed).2 = (mulberry32_spec_next (seed % 4294967296)).2 := by
      simp only [mulberry32_next, mulberry32_spec_next, hstep.1]
    have hst1 : (mulberry32_next seed).1 = seed + 0x6D2B79F5 := by
      simp only [mulberry32_next, hstep.2.1]
    have hst2 : (mulberry32_spec_next (seed % 4294967296)).1
        = (seed + 0x6D2B79F5) % 4294967296 := by
      simp only [mulberry32_spec_next]
      rw [← hstep.2.2, hstep.2.1]
    simp only [mulberry32_run, mulberry32_spec_run, hout, hst1, hst2]
    rw [ih (seed + 0x6D2B79F5) (by omega)]

/-- The part of the generator contract that does hold unconditionally:
every output is a nonnegative 32-bit word divided by `2 ^ 32`, in `[0, 1)`. -/
lemma mulberry32_out_range (seed : Nat) :
    0 ≤ (mulberry32_next seed).2 ∧ (mulberry32_next seed).2 < 1 := by
  have hlt : (mulberry32_step seed).2 < 4294967296 := by
    simp only [mulberry32_step, m32mix]
    exact Nat.mod_lt _ (by norm_num)
  simp only [mulberry32_next]
  constructor
  · positivity
  · rw [div_lt_one (by norm_num)]
    exact_mod_cast hlt

/-- Claim C4: the claim requires the stored state, like every intermediate,
to be kept in unsigned 32-bit wraparound arithmetic, making outputs
bit-identical to the all-32-bit generator.  The code instead accumulates
the seed in a plain JS double that is never truncated: at stored state
`2 ^ 53` — reached after about 4.9 million draws from a `Date.now()` seed,
within this repository's own benchmark runs — the addition of the odd
increment hits a rounding tie, the accumulator silently loses `1`, and the
next output differs from the 32-bit-wraparound generator's output. -/
theorem mulberry32_wide_state_rounds :
    jsAdd (2 ^ 53) 0x6D2B79F5 = 2 ^ 53 + 0x6D2B79F5 - 1 ∧
      (mulberry32_next (2 ^ 53)).1 ≠ 2 ^ 53 + 0x6D2B79F5 ∧
      (mulberry32_next (2 ^ 53)).2 ≠ (mulberry32_spec_next (2 ^ 53 % 4294967296)).2 := by
  have hne : (mulberry32_step (2 ^ 53)).2 ≠ (mulberry32_spec_step (2 ^ 53 % 4294967296)).2 := by
    decide
  refine ⟨by decide, by decide, ?_⟩
  simp only [mulberry32_next, mulberry32_spec_next]
  intro hc
  apply hne
  field_simp at hc
  exact_mod_cast hc

/-- Claim C5: two runs of the `mulberry32` generator from the same seed
produce bit-identical output sequences over call sequences of equal length,
and consequently two runs of `AFB_x_AS_x_OPT` with identical seed and
identical `N` produce identical output buffers. -/
theorem mulberry32_shuffle_deterministic :
    (∀ (s : Nat) (l1 l2 : List ℚ), M32Trace s l1 → M32Trace s l2 →
        l1.length = l2.length → l1 = l2) ∧
      (∀ (n seed : Nat) (o1 o2 : List Nat), ShuffleRun n seed o1 → ShuffleRun n seed o2 →
        o1 = o2) := by
  have hdet : ∀ (s : Nat) (l1 l2 : List ℚ), M32Trace s l1 → M32Trace s l2 →
      l1.length = l2.length → l1 = l2 := by
    intro s l1 l2 h1
    induction h1 generalizing l2 with
    | nil _ =>
      intro h2 hlen
      cases h2 with
      | nil => rfl
      | cons _ _ _ _ _ _ => simp at hlen
    | cons s s2 q rest hstep h ih =>
      intro h2 hlen
      cases h2 with
      | nil => simp at hlen
      | cons _ s2b qb restb hstepb hb =>
        have hpair : (s2, q) = (s2b, qb) := hstep.symm.trans hstepb
        have hs2 : s2 = s2b := (Prod.mk.injEq _ _ _ _).mp hpair |>.1
        have hq : q = qb := (Prod.mk.injEq _ _ _ _).mp hpair |>.2
        subst hs2
        subst hq
        have hr : rest = restb := ih restb hb (by simpa using hlen)
        rw [hr]
  refine ⟨hdet, ?_⟩
  rintro n seed o1 o2 ⟨rs1, ht1, hl1, ho1⟩ ⟨rs2, ht2, hl2, ho2⟩
  have hr : rs1 = rs2 := hdet seed rs1 rs2 ht1 ht2 (by rw [hl1, hl2])
  rw [ho1, ho2, hr]

/-- Witness for C5 at seed `0`, `N = 2`: the one-draw trace exists and the
two runs coincide. -/
theorem mulberry32_shuffle_deterministic_witness :
    M32Trace 0 [(mulberry32_next 0).2] ∧
      AFB_x_AS_x_OPT 2 [(mulberry32_next 0).2] = AFB_x_AS_x_OPT 2 [(mulberry32_next 0).2] :=
  ⟨M32Trace.cons 0 (mulberry32_next 0).1 (mulberry32_next 0).2 [] rfl (M32Trace.nil _),
    mulberry32_shuffle_deterministic.2 2 0 _ _
      ⟨[(mulberry32_next 0).2],
        M32Trace.cons 0 (mulberry32_next 0).1 (mulberry32_next 0).2 [] rfl (M32Trace.nil _),
        rfl, rfl⟩
      ⟨[(mulberry32_next 0).2],
        M32Trace.cons 0 (mulberry32_next 0).1 (mulberry32_next 0).2 [] rfl (M32Trace.nil _),
        rfl, rfl⟩⟩

/-- Claim C6: `arrayFillA` and `arrayFillB` are claimed to both build
`[1, ..., N]`.  At `N = 1` the code disagrees: `arrayFillA` uses the
callback `(_, i) => i` and returns `[0]`, while `arrayFillB` returns `[1]`. -/
theorem arrayFillA_vs_arrayFillB_at_one :
    arrayFillA 1 = [0] ∧ arrayFillB 1 = [1] ∧ arrayFillA 1 ≠ arrayFillB 1 := by
  refine ⟨rfl, rfl, ?_⟩
  decide

/-- Claim C7: at `N = 1` the claim requires the singleton buffer `[1]` from
both variants.  `AFB_x_AS_x_OPT` does return `[1]`, but in
`AFB_x_AS_x_OPT_x_NO_INIT` the loop body never runs, so the zeroed
`Uint32Array` is returned unchanged: the output is `[0]`. -/
theorem noInit_at_one_returns_zero :
    AFB_x_AS_x_OPT 1 [] = [1] ∧ AFB_x_AS_x_OPT_x_NO_INIT 1 [] = [0] := by
  constructor <;> rfl

/-- Claim C8: with `N = 2`, three pre-zeroed slots and both draws landing in
slot `0`, the values `1 < 2` collide into one slot, yet neither appears as a
numeric element of the returned buffer — the collision list is pushed raw —
so `1` is not emitted before `2` as the claim states. -/
theorem bucketRadix_collision_values_missing :
    BucketRadixShuffle [Slot.num 0, Slot.num 0, Slot.num 0] 2 [0, 0] = [Slot.arr [1, 2]] ∧
      Slot.num 1 ∉ BucketRadixShuffle [Slot.num 0, Slot.num 0, Slot.num 0] 2 [0, 0] ∧
      Slot.num 2 ∉ BucketRadixShuffle [Slot.num 0, Slot.num 0, Slot.num 0] 2 [0, 0] := by
  have h : BucketRadixShuffle [Slot.num 0, Slot.num 0, Slot.num 0] 2 [0, 0]
      = [Slot.arr [1, 2]] := by
    simp [BucketRadixShuffle, distGo, natFloorIdx, bucketPlace, collect, collectGo, emitSlot,
      slotIsArr, List.getD]
  refine ⟨h, ?_, ?_⟩ <;> rw [h] <;> decide

/-- Claim C9: with `N = 2` and the single draw `r = 1/2` (so `j = 1` at
`i = 1`), `AFB_x_AS_x_OPT` returns `[1, 2]` but the no-init variant returns
`[0, 2]`: position `0` is never touched by a swap, so the lazy `a[i]||(i+1)`
materialization never writes it and the zero from allocation leaks out. -/
theorem noInit_differs_from_opt :
    AFB_x_AS_x_OPT 2 [(1 : ℚ) / 2] = [1, 2] ∧
      AFB_x_AS_x_OPT_x_NO_INIT 2 [(1 : ℚ) / 2] = [0, 2] ∧
      AFB_x_AS_x_OPT_x_NO_INIT 2 [(1 : ℚ) / 2] ≠ AFB_x_AS_x_OPT 2 [(1 : ℚ) / 2] := by
  have hj : jIndex ((2 : ℚ))⁻¹ 1 = 1 := by norm_num [jIndex]
  have h0 : AFB_x_AS_x_OPT_x_NO_INIT 2 [(1 : ℚ) / 2] = [0, 2] := by
    simp [AFB_x_AS_x_OPT_x_NO_INIT, noInitLoop, hj, noInitSwap, jsOr, u32, List.range_succ,
      Function.update_apply]
  have h1 : AFB_x_AS_x_OPT 2 [(1 : ℚ) / 2] = [1, 2] := by
    simp [AFB_x_AS_x_OPT, optLoop, hj, optSwap, optFill, u32, List.range_succ,
      Function.update_apply]
  refine ⟨h1, h0, ?_⟩
  rw [h0, h1]
  decide

/-- Claim C10: `measure` applies the thunk exactly once to the world state,
reports the elapsed wall-clock time around that single execution, and the
reported throughput equals `n` divided by the elapsed time in seconds. -/
theorem measure_single_run_throughput {σ : Type} (f : σ → σ) (n : ℚ) (nm : String)
    (t0 t1 : ℚ) (s : σ) (h : t0 < t1) :
    (measure ⟨f, n, nm⟩ t0 t1 s).1 = f s ∧
      (measure ⟨f, n, nm⟩ t0 t1 s).2.ms = t1 - t0 ∧
      (measure ⟨f, n, nm⟩ t0 t1 s).2.ops = n / ((t1 - t0) / 1000) := by
  refine ⟨rfl, rfl, ?_⟩
  show n / (t1 - t0) * 1000 = n / ((t1 - t0) / 1000)
  have hne : t1 - t0 ≠ 0 := sub_ne_zero.mpr (ne_of_gt h)
  field_simp

/-- Witness for C10: a counter world state advanced exactly once, elapsed
2 ms, declared 10 operations. -/
theorem measure_single_run_throughput_witness :
    (0 : ℚ) < 2 ∧
      (measure ⟨Nat.succ, 10, benchLabel⟩ 0 2 0).1 = 1 ∧
      (measure ⟨Nat.succ, 10, benchLabel⟩ 0 2 0).2.ops = 10 / ((2 - 0) / 1000) := by
  refine ⟨by norm_num, ?_, ?_⟩
  · exact (measure_single_run_throughput Nat.succ 10 benchLabel 0 2 0 (by norm_num)).1
  · exact (measure_single_run_throughput Nat.succ 10 benchLabel 0 2 0 (by norm_num)).2.2

end GMN
